import Mathlib

/-
Verification of the Game Result Processing & Validation Pipeline of
Project-RDC (src/src/lib/game-processors/CoDGunGameProcessor.ts and its
collaborators).  Pure functions of the source are embedded shallowly as
Lean functions; JavaScript `Array.prototype.sort` (stable, ES2019+) is
embedded as a stable insertion sort; a thrown TypeError is embedded as
`Option.none`.  Functions of this repository that are referenced from the
embedded files but whose defining file is not part of the given sources
(game-processor-utils.ts, stat-configs.ts, rdc-vision-helpers.ts) are
modelled from the specification; each such definition carries a doc
comment beginning "Modelled from the spec:".
-/

/-- A per-player stat record (visionTypes.ts `Stat`):
`{ statId: number, stat: string, statValue: string }`. -/
structure Stat where
  statId : Nat
  stat : String
  statValue : String
deriving DecidableEq, Repr

/-- A normalized player (visionTypes.ts `VisionPlayer`):
`{ playerId, name, stats }`. -/
structure VisionPlayer where
  playerId : Nat
  name : String
  stats : List Stat
deriving DecidableEq, Repr

/-- A roster entry (prisma `Player`): known identity supplied by the caller. -/
structure Player where
  playerId : Nat
  playerName : String
deriving DecidableEq, Repr

/-- Result of `processPlayer`: a normalized player together with its
per-player review flag (spec section 4.2). -/
structure ProcessedPlayer where
  player : VisionPlayer
  reqCheckFlag : Bool
deriving DecidableEq, Repr

/-- Result shape of `processPlayers`:
`{ processedPlayers: VisionPlayer[]; reqCheckFlag: boolean }`. -/
structure ProcessResult where
  processedPlayers : List VisionPlayer
  reqCheckFlag : Bool
deriving DecidableEq, Repr

/-- Result shape of `validateStats`: `{ statValue, reqCheck }`. -/
structure StatValidation where
  statValue : String
  reqCheck : Bool
deriving DecidableEq, Repr

/-- The three outcome codes (constants.ts `VisionResultCodes`, referenced
from the embedded source). -/
inductive VisionResultCodes where
  | Success
  | CheckRequest
  | Failed
deriving DecidableEq, Repr

/-- Payload of an outcome: `data: { players, winner }`. -/
structure VisionData where
  players : List VisionPlayer
  winner : List VisionPlayer
deriving DecidableEq, Repr

/-- An outcome returned to the caller: `{ status, data, message }`. -/
structure VisionOutcome where
  status : VisionResultCodes
  data : VisionData
  message : String
deriving DecidableEq, Repr

/-- One raw stat reading of a vision-extracted player blob: the declared
stat slot (id and field key) together with the raw reading, which may be
absent. -/
structure RawStatReading where
  statId : Nat
  key : String
  reading : Option String
deriving DecidableEq, Repr

/-- One raw vision-extracted player blob: an identity hint plus raw stat
readings (spec section 3, RawPlayerExtraction). -/
structure RawPlayer where
  name : String
  readings : List RawStatReading
deriving DecidableEq, Repr

/-- One entry of the individual-players raw shape
(visionAction.ts `AnalyzedPlayersObj`): its `valueArray` holds the player
blobs and may be absent (the Marvel Rivals processor guards
`playerContainer?.valueArray?.length`). -/
structure AnalyzedPlayersObj where
  valueArray : Option (List RawPlayer)
deriving DecidableEq, Repr

/-- One entry of the team-grouped raw shape
(visionAction.ts `AnalyzedTeamData`). -/
structure AnalyzedTeamData where
  teamName : String
  valueArray : List RawPlayer
deriving DecidableEq, Repr

/-- The union type `AnalyzedPlayersObj[] | AnalyzedTeamData[]` taken by
`processPlayers`: the two raw shapes are mutually exclusive (spec
section 3). -/
inductive RawExtraction where
  | individual (objs : List AnalyzedPlayersObj)
  | team (teams : List AnalyzedTeamData)
deriving DecidableEq, Repr

/-- Modelled from the spec: the runtime type guard
`isAnalyzedTeamDataArray` (game-processor-utils.ts, not under src/);
section 3: the individual and team raw shapes "are mutually exclusive and
must be discriminated before processing". -/
def isAnalyzedTeamDataArray : RawExtraction → Bool
  | .team _ => true
  | .individual _ => false

/-- Accumulate the leading decimal digits of a character list onto `acc`
(helper for the `parseInt` model). -/
def jsDigits : Nat → List Char → Nat
  | acc, [] => acc
  | acc, ch :: cs => if ch.isDigit then jsDigits (acc * 10 + (ch.toNat - 48)) cs else acc

/-- Leading decimal-digit run of a character list; `none` when the first
character is not a digit (the `NaN` case of `parseInt`). -/
def jsLeadNat : List Char → Option Nat
  | [] => none
  | ch :: cs => if ch.isDigit then some (jsDigits 0 (ch :: cs)) else none

/-- JavaScript `parseInt(s)` (radix 10): skip leading whitespace, optional
sign, then the leading digit run; `none` models `NaN`. -/
def jsParseInt (s : String) : Option Int :=
  match s.toList.dropWhile Char.isWhitespace with
  | '-' :: cs => (jsLeadNat cs).map (fun n => -(n : Int))
  | '+' :: cs => (jsLeadNat cs).map (fun n => (n : Int))
  | cs => (jsLeadNat cs).map (fun n => (n : Int))

/-- JavaScript `o?.x || d` on an optional string: `undefined` and `""` are
falsy and yield the default. -/
def jsStringOr (o : Option String) (d : String) : String :=
  match o with
  | none => d
  | some s => if s = "" then d else s

/-- The sort key of the comparator in `rankPlayersByScore`
(CoDGunGameProcessor.ts lines 21-28):
`parseInt(p.stats.find(stat => stat.stat === "COD_SCORE")?.statValue || "0")`.
`none` models a `NaN` key. -/
def scoreKey (p : VisionPlayer) : Option Int :=
  jsParseInt (jsStringOr ((p.stats.find? (fun st => st.stat == "COD_SCORE")).map Stat.statValue) "0")

/-- The integer score a player is ranked by (a `NaN` key reads as 0). -/
def scoreVal (p : VisionPlayer) : Int :=
  (scoreKey p).getD 0

/-- The comparator `(a, b) => bKills - aKills` of `rankPlayersByScore`,
composed with the ECMAScript SortCompare rule that a `NaN` comparator
result is treated as `+0`. -/
def cmpPlayers (a b : VisionPlayer) : Int :=
  match scoreKey a, scoreKey b with
  | some x, some y => y - x
  | _, _ => 0

/-- Stable insertion of `x` (earlier in input order than every element of
the list) under comparator `c`: `x` is placed before the first element it
need not follow, exactly the stable-sort placement of
`Array.prototype.sort`. -/
def insertC {α : Type} (c : α → α → Int) (x : α) : List α → List α
  | [] => [x]
  | y :: ys => if c x y ≤ 0 then x :: y :: ys else y :: insertC c x ys

/-- Stable sort under comparator `c`: the embedding of
`[...players].sort(comparator)` (stable since ES2019). -/
def sortC {α : Type} (c : α → α → Int) : List α → List α
  | [] => []
  | x :: xs => insertC c x (sortC c xs)

/-- Minimal stat-catalog entry (stat-configs.ts `StatConfig`); only the
numeric id is consumed by the embedded code. -/
structure StatConfig where
  id : Nat
deriving DecidableEq, Repr

/-- Modelled from the spec: the Stat Catalog lookup
`getStatConfigByFieldKey` (stat-configs.ts, not under src/); section 4.1:
a pure read-only lookup from a field key to a numeric id, possibly not
found.  Its catalog entries are not part of the given sources, so the
lookup is left empty and the source's fallback `?.id || 12` applies. -/
def getStatConfigByFieldKey (_fieldKey : String) : Option StatConfig :=
  none

/-- The derived position stat pushed by `rankPlayersByScore` when
`COD_POS` is absent (CoDGunGameProcessor.ts lines 44-49). -/
def codPosStat (position : Nat) : Stat :=
  { statId := ((getStatConfigByFieldKey "cod_pos").map StatConfig.id).getD 12
    stat := "COD_POS"
    statValue := toString position }

/-- Update the first `COD_POS` entry in place with the new position, or
push a fresh `COD_POS` stat at the end when none exists
(CoDGunGameProcessor.ts lines 35-50). -/
def updateFirstPos (position : Nat) : List Stat → List Stat
  | [] => [codPosStat position]
  | st :: rest =>
    if st.stat == "COD_POS" then { st with statValue := toString position } :: rest
    else st :: updateFirstPos position rest

/-- Write position `position` into a player's `COD_POS` stat. -/
def setPos (position : Nat) (p : VisionPlayer) : VisionPlayer :=
  { p with stats := updateFirstPos position p.stats }

/-- Assign 1-based positions down a sorted player list
(`sortedPlayers.map((player, index) => ...)` with `position = index + 1`). -/
def assignPositions : Nat → List VisionPlayer → List VisionPlayer
  | _, [] => []
  | n, p :: ps => setPos n p :: assignPositions (n + 1) ps

/-- `rankPlayersByScore` (CoDGunGameProcessor.ts lines 19-54): stable sort
by the `COD_SCORE` comparator, descending, then assign `COD_POS`
positions 1,2,3,... down the sorted order. -/
def rankPlayersByScore (players : List VisionPlayer) : List VisionPlayer :=
  assignPositions 1 (sortC cmpPlayers players)

/-- Modelled from the spec: the per-stat defaulting step used by the
Player Normalizer (game-processor-utils.ts, not under src/); section 4.2:
an absent reading is substituted by the default `"0"` and raises the
review flag, a present reading is kept (the policy of the in-source
`validateStats` functions). -/
def defaultStatReading (reading : Option String) : StatValidation :=
  match reading with
  | none => { statValue := "0", reqCheck := true }
  | some s => { statValue := s, reqCheck := false }

/-- Modelled from the spec: the Player Normalizer `processPlayer`
(game-processor-utils.ts, not under src/); section 4.2: every declared
stat of the blob appears in the result (defaulted or not), the sentinel
`playerId` 0 is used until reconciliation, and the per-player review flag
is the OR of the per-stat flags. -/
def processPlayer (raw : RawPlayer) : ProcessedPlayer :=
  let checked := raw.readings.map (fun r =>
    (({ statId := r.statId
        stat := r.key
        statValue := (defaultStatReading r.reading).statValue } : Stat),
      (defaultStatReading r.reading).reqCheck))
  { player := { playerId := 0, name := raw.name, stats := checked.map Prod.fst }
    reqCheckFlag := checked.any Prod.snd }

/-- Starts-with test on character lists (helper for the fuzzy name
match). -/
def seqStartsWith : List Char → List Char → Bool
  | _, [] => true
  | [], _ :: _ => false
  | x :: xs, y :: ys => x == y && seqStartsWith xs ys

/-- Contiguous-subsequence test on character lists (helper for the fuzzy
name match). -/
def seqContains : List Char → List Char → Bool
  | _, [] => true
  | [], _ :: _ => false
  | x :: xs, sub => seqStartsWith (x :: xs) sub || seqContains xs sub

/-- Lower-case a name and drop its whitespace (the case-insensitive,
whitespace-tolerant normalization of the Roster Reconciler). -/
def normalizeName (s : String) : String :=
  String.mk ((s.toList.filter (fun ch => !ch.isWhitespace)).map Char.toLower)

/-- Fuzzy name match of the Roster Reconciler: the extracted name may be a
misread substring or superset of the true roster name (spec section 4.3). -/
def nameMatches (extracted rosterName : String) : Bool :=
  let e := (normalizeName extracted).toList
  let r := (normalizeName rosterName).toList
  seqContains r e || seqContains e r

/-- Modelled from the spec: the Roster Reconciler `validateProcessedPlayer`
(game-processor-utils.ts, not under src/); section 4.3: exactly one
matching roster candidate yields the player with the roster id and
canonical name; zero candidates — and, per the design note, ambiguous
multiple candidates — yield `null`. -/
def validateProcessedPlayer (pp : ProcessedPlayer) (roster : List Player) : Option VisionPlayer :=
  match roster.filter (fun rp => nameMatches pp.player.name rp.playerName) with
  | [rp] => some { pp.player with playerId := rp.playerId, name := rp.playerName }
  | _ => none

/-- Win-condition direction (`comparison: "highest" | "lowest"`). -/
inductive WinComparison where
  | highest
  | lowest
deriving DecidableEq, Repr

/-- Win condition: `{ statName, comparison }`. -/
structure WinCondition where
  statName : String
  comparison : WinComparison
deriving DecidableEq, Repr

/-- Winner-config type (`"INDIVIDUAL" | "TEAM"`). -/
inductive WinnerType where
  | INDIVIDUAL
  | TEAM
deriving DecidableEq, Repr

/-- `WinnerConfig` (game-processor-utils.ts): the per-game declaration of
which stat decides victory and in which direction. -/
structure WinnerConfig where
  type : WinnerType
  winCondition : WinCondition
deriving DecidableEq, Repr

/-- The win-condition stat value of one player: the configured stat is
extracted and a missing or unparseable reading counts as 0 (spec
section 4.5). -/
def winStatValue (statName : String) (p : VisionPlayer) : Int :=
  match p.stats.find? (fun st => st.stat == statName) with
  | none => 0
  | some st => (jsParseInt st.statValue).getD 0

/-- Modelled from the spec: the Winner Calculator
`calculateIndividualWinner` (game-processor-utils.ts, not under src/);
section 4.5: extract the configured win-condition stat from every player
(missing treated as 0), select the extremum (max for `highest`, min for
`lowest`), and return all players sharing the extremal value as
co-winners; an empty input yields an empty winner list. -/
def calculateIndividualWinner (players : List VisionPlayer) (config : WinnerConfig) : List VisionPlayer :=
  match players with
  | [] => []
  | p :: ps =>
    let sv := winStatValue config.winCondition.statName
    let pick : Int → Int → Int :=
      match config.winCondition.comparison with
      | .highest => max
      | .lowest => min
    let m := ps.foldl (fun acc q => pick acc (sv q)) (sv p)
    (p :: ps).filter (fun q => sv q == m)

namespace CoDGunGameProcessor

/-- `CoDGunGameProcessor.processPlayers` (CoDGunGameProcessor.ts lines
57-96).  `requiresCheck` is a `const false` in the source and is returned
unchanged; a player failing `validateProcessedPlayer` is skipped by the
`forEach` callback's early return.  `none` models the TypeError thrown by
`codPlayers[0].valueArray.forEach` when the individual-shaped outer array
is empty or its first entry has no `valueArray`. -/
def processPlayers (codPlayers : RawExtraction) (sessionPlayers : List Player) :
    Option ProcessResult :=
  match codPlayers with
  | .team _ => some { processedPlayers := [], reqCheckFlag := true }
  | .individual objs =>
    match objs with
    | [] => none
    | obj :: _ =>
      match obj.valueArray with
      | none => none
      | some rawPlayers =>
        let collected := rawPlayers.foldl
          (fun acc rawP =>
            match validateProcessedPlayer (processPlayer rawP) sessionPlayers with
            | none => acc
            | some vp => acc ++ [vp]) []
        some { processedPlayers := rankPlayersByScore collected, reqCheckFlag := false }

/-- `CoDGunGameProcessor.calculateWinners` (CoDGunGameProcessor.ts lines
97-114): `calculateIndividualWinner` under the fixed config
`INDIVIDUAL / COD_SCORE / highest`. -/
def calculateWinners (players : List VisionPlayer) : List VisionPlayer :=
  calculateIndividualWinner players
    { type := .INDIVIDUAL
      winCondition := { statName := "COD_SCORE", comparison := .highest } }

/-- `CoDGunGameProcessor.validateStats` (CoDGunGameProcessor.ts lines
115-125): an `undefined` reading becomes `{ statValue: "0", reqCheck:
true }`; any present reading is returned unchanged with `reqCheck:
false`. -/
def validateStats (statValue : Option String) (_numPlayers : Option Nat) : StatValidation :=
  match statValue with
  | none => { statValue := "0", reqCheck := true }
  | some s => { statValue := s, reqCheck := false }

/-- `CoDGunGameProcessor.validateResults` (CoDGunGameProcessor.ts lines
126-143). -/
def validateResults (visionPlayers visionWinners : List VisionPlayer)
    (requiresCheck : Bool) : VisionOutcome :=
  if requiresCheck then
    { status := .CheckRequest
      data := { players := visionPlayers, winner := visionWinners }
      message := "There was some trouble processing some stats. They have been assigned the most probable value but please check to ensure all stats are correct before submitting." }
  else
    { status := .Success
      data := { players := visionPlayers, winner := visionWinners }
      message := "Results have been successfully imported." }

end CoDGunGameProcessor

/-- `processMarvelRivalsPlayers` (CoDGunGameProcessor.ts embedded Marvel
Rivals module, lines 159-204): guards the missing/empty first container
(`!playerContainer?.valueArray?.length`), ORs every per-player review flag
into `requiresCheck`, and on a failed reconciliation excludes the player
and sets `requiresCheck`. -/
def processMarvelRivalsPlayers (mrPlayers : RawExtraction) (sessionPlayers : List Player) :
    ProcessResult :=
  match mrPlayers with
  | .team _ => { processedPlayers := [], reqCheckFlag := true }
  | .individual objs =>
    match objs with
    | [] => { processedPlayers := [], reqCheckFlag := true }
    | obj :: _ =>
      match obj.valueArray with
      | none => { processedPlayers := [], reqCheckFlag := true }
      | some [] => { processedPlayers := [], reqCheckFlag := true }
      | some rawPlayers =>
        let r := rawPlayers.foldl
          (fun (acc : List VisionPlayer × Bool) rawP =>
            let pp := processPlayer rawP
            let flag := acc.2 || pp.reqCheckFlag
            match validateProcessedPlayer pp sessionPlayers with
            | none => (acc.1, true)
            | some vp => (acc.1 ++ [vp], flag)) ([], false)
        { processedPlayers := r.1, reqCheckFlag := r.2 }

/-- `calculateMarvelRivalsWinners` (stub in the source): games with no
winner rule return an empty winner list, not an error. -/
def calculateMarvelRivalsWinners (_players : List VisionPlayer) : List VisionPlayer :=
  []

/-- `validateMarvelRivalsStatValue` (CoDGunGameProcessor.ts embedded
Marvel Rivals module, lines 232-242): same defaulting policy as the CoD
`validateStats`. -/
def validateMarvelRivalsStatValue (statValue : Option String) (_numPlayers : Option Nat) :
    StatValidation :=
  match statValue with
  | none => { statValue := "0", reqCheck := true }
  | some s => { statValue := s, reqCheck := false }

namespace MarvelRivals

/-- The module-level `validateResults` of the Marvel Rivals file
(CoDGunGameProcessor.ts embedded module, lines 213-230); its body is
identical to the CoD version. -/
def validateResults (visionPlayers visionWinners : List VisionPlayer)
    (requiresCheck : Bool) : VisionOutcome :=
  if requiresCheck then
    { status := .CheckRequest
      data := { players := visionPlayers, winner := visionWinners }
      message := "There was some trouble processing some stats. They have been assigned the most probable value but please check to ensure all stats are correct before submitting." }
  else
    { status := .Success
      data := { players := visionPlayers, winner := visionWinners }
      message := "Results have been successfully imported." }

end MarvelRivals

/-- Modelled from the spec: the single-screenshot pipeline driver
`handleAnalyzeBtnClick` (rdc-vision-helpers.ts, not under src/); sections
4.6 and 7: a processor-level hard failure — the wrong raw-extraction shape
for this processor, or zero resolvable players — bypasses the
Success/CheckRequest mapping and yields status `Failed` with an empty
player/winner payload and a specific diagnostic message (for the shape
case, the diagnostic logged by the in-source processor); otherwise winners
are computed and `validateResults` maps the review flag to the outcome. -/
def handleAnalyzeBtnClick (raw : RawExtraction) (sessionPlayers : List Player) : VisionOutcome :=
  if isAnalyzedTeamDataArray raw then
    { status := .Failed
      data := { players := [], winner := [] }
      message := "Invalid data format for CoD Gun Game players." }
  else
    match CoDGunGameProcessor.processPlayers raw sessionPlayers with
    | none =>
      { status := .Failed
        data := { players := [], winner := [] }
        message := "No player data detected." }
    | some r =>
      if r.processedPlayers.isEmpty then
        { status := .Failed
          data := { players := [], winner := [] }
          message := "No resolvable players detected." }
      else
        CoDGunGameProcessor.validateResults r.processedPlayers
          (CoDGunGameProcessor.calculateWinners r.processedPlayers) r.reqCheckFlag

/-- The bulk fan-out of BulkUploadModal.tsx (`Promise.all` over
`pendingFiles.map(processFileWithStatusUpdate)`): every pending item is
pushed through the single-screenshot pipeline independently, keyed by its
opaque per-item id. -/
def bulkProcess (items : List (String × RawExtraction)) (sessionPlayers : List Player) :
    List (String × VisionOutcome) :=
  items.map (fun it => (it.1, handleAnalyzeBtnClick it.2 sessionPlayers))

/-- Strip a player's derived `COD_POS` stat (frame-condition helper: the
rest of the player must be untouched by the ranking pass). -/
def stripPos (p : VisionPlayer) : VisionPlayer :=
  { p with stats := p.stats.filter (fun st => !(st.stat == "COD_POS")) }

/-- The value of a player's `COD_POS` stat, when present. -/
def posValue (p : VisionPlayer) : Option String :=
  (p.stats.find? (fun st => st.stat == "COD_POS")).map Stat.statValue

/-- Adjacent-pairs comparator condition: each element may stay before its
successor under comparator `c`. -/
def AdjPairs {α : Type} (c : α → α → Int) : List α → Prop
  | [] => True
  | [_] => True
  | x :: y :: t => c x y ≤ 0 ∧ AdjPairs c (y :: t)

/-- Sample roster of one known player. -/
def demoRoster : List Player :=
  [{ playerId := 7, playerName := "Mako" }]

/-- Raw blob whose extracted name matches nobody on `demoRoster`. -/
def rawGhostPlayer : RawPlayer :=
  { name := "ZZZZ", readings := [{ statId := 1, key := "COD_SCORE", reading := some "10" }] }

/-- Raw blob with a matching name but an absent score reading. -/
def rawMakoMissing : RawPlayer :=
  { name := "Mako", readings := [{ statId := 1, key := "COD_SCORE", reading := none }] }

/-- Raw blob with a matching name and a present score reading. -/
def rawMakoPresent : RawPlayer :=
  { name := "Mako", readings := [{ statId := 1, key := "COD_SCORE", reading := some "5" }] }

/-- A finalized player with only a `COD_SCORE` stat. -/
def scoredPlayer (nm : String) (v : String) : VisionPlayer :=
  { playerId := 0, name := nm, stats := [{ statId := 1, stat := "COD_SCORE", statValue := v }] }

/-- The spec's ranking example: three players with scores 30, 45, 12. -/
def demoRankPlayers : List VisionPlayer :=
  [scoredPlayer "a" "30", scoredPlayer "b" "45", scoredPlayer "c" "12"]

/-- The spec's tie example: scores 10, 7, 10, 3. -/
def demoTieFirst : List VisionPlayer :=
  [scoredPlayer "a" "10", scoredPlayer "b" "7", scoredPlayer "c" "10", scoredPlayer "d" "3"]

/-- The tie example in a different input order. -/
def demoTieSecond : List VisionPlayer :=
  [scoredPlayer "d" "3", scoredPlayer "c" "10", scoredPlayer "b" "7", scoredPlayer "a" "10"]

theorem insertC_perm {α : Type} (c : α → α → Int) (x : α) :
    ∀ l : List α, (insertC c x l).Perm (x :: l)
  | [] => List.Perm.refl _
  | y :: ys => by
    by_cases h : c x y ≤ 0
    · simp [insertC, h]
    · simp only [insertC, if_neg h]
      exact ((insertC_perm c x ys).cons y).trans (List.Perm.swap x y ys)

theorem sortC_perm {α : Type} (c : α → α → Int) :
    ∀ l : List α, (sortC c l).Perm l
  | [] => List.Perm.refl _
  | x :: xs => (insertC_perm c x (sortC c xs)).trans ((sortC_perm c xs).cons x)

theorem adjPairs_tail {α : Type} {c : α → α → Int} {x : α} {l : List α}
    (h : AdjPairs c (x :: l)) : AdjPairs c l := by
  cases l with
  | nil => trivial
  | cons y ys => exact h.2

theorem adjPairs_insertC {α : Type} {c : α → α → Int}
    (hc : ∀ a b, c a b = - c b a) (x : α) :
    ∀ l : List α, AdjPairs c l → AdjPairs c (insertC c x l) := by
  intro l
  induction l with
  | nil => intro _; exact trivial
  | cons y ys ih =>
    intro h
    by_cases hxy : c x y ≤ 0
    · simp only [insertC, if_pos hxy]
      exact ⟨hxy, h⟩
    · simp only [insertC, if_neg hxy]
      cases ys with
      | nil =>
        have h1 : c y x = - c x y := hc y x
        exact ⟨by omega, trivial⟩
      | cons z zs =>
        obtain ⟨hyz, h2⟩ : c y z ≤ 0 ∧ AdjPairs c (z :: zs) := h
        by_cases hxz : c x z ≤ 0
        · simp only [insertC, if_pos hxz]
          have h1 : c y x = - c x y := hc y x
          exact ⟨by omega, hxz, h2⟩
        · simp only [insertC, if_neg hxz]
          have ihz : AdjPairs c (insertC c x (z :: zs)) := ih h2
          rw [show insertC c x (z :: zs) = z :: insertC c x zs from by
            simp [insertC, hxz]] at ihz
          exact ⟨hyz, ihz⟩

theorem adjPairs_sortC {α : Type} {c : α → α → Int}
    (hc : ∀ a b, c a b = - c b a) : ∀ l : List α, AdjPairs c (sortC c l)
  | [] => trivial
  | x :: xs => adjPairs_insertC hc x _ (adjPairs_sortC hc xs)

theorem sortC_fix {α : Type} (c : α → α → Int) :
    ∀ l : List α, AdjPairs c l → sortC c l = l := by
  intro l
  induction l with
  | nil => intro _; rfl
  | cons x xs ih =>
    intro h
    show insertC c x (sortC c xs) = x :: xs
    rw [ih (adjPairs_tail h)]
    cases xs with
    | nil => rfl
    | cons y ys =>
      obtain ⟨hxy, -⟩ : c x y ≤ 0 ∧ AdjPairs c (y :: ys) := h
      simp [insertC, hxy]

theorem cmpPlayers_antisymm (a b : VisionPlayer) : cmpPlayers a b = - cmpPlayers b a := by
  unfold cmpPlayers
  cases scoreKey a <;> cases scoreKey b
  · rfl
  · rfl
  · rfl
  · show _ - _ = -(_ - _)
    omega

theorem find?_cons_eq {α : Type} (p : α → Bool) (a : α) (l : List α) :
    (a :: l).find? p = if p a then some a else l.find? p := by
  by_cases h : p a
  · rw [if_pos h]
    exact List.find?_cons_of_pos _ h
  · rw [if_neg h]
    exact List.find?_cons_of_neg _ (by simpa using h)

theorem find?_score_updateFirstPos (n : Nat) :
    ∀ l : List Stat,
      (updateFirstPos n l).find? (fun st => st.stat == "COD_SCORE") =
        l.find? (fun st => st.stat == "COD_SCORE") := by
  intro l
  induction l with
  | nil => rfl
  | cons st rest ih =>
    by_cases hst : st.stat == "COD_POS"
    · have hps : st.stat = "COD_POS" := by simpa using hst
      simp only [updateFirstPos, if_pos hst]
      rw [find?_cons_eq, find?_cons_eq]
      simp [hps, ih]
    · simp only [updateFirstPos, if_neg hst]
      rw [find?_cons_eq, find?_cons_eq]
      by_cases hsc : st.stat == "COD_SCORE"
      · rw [if_pos hsc, if_pos hsc]
      · rw [if_neg (by simpa using hsc), if_neg (by simpa using hsc), ih]

theorem find?_pos_updateFirstPos (n : Nat) :
    ∀ l : List Stat,
      ((updateFirstPos n l).find? (fun st => st.stat == "COD_POS")).map Stat.statValue =
        some (toString n) := by
  intro l
  induction l with
  | nil =>
    simp only [updateFirstPos]
    rw [List.find?_cons_of_pos _ (by simp [codPosStat])]
    rfl
  | cons st rest ih =>
    by_cases hst : st.stat == "COD_POS"
    · simp only [updateFirstPos, if_pos hst]
      rw [List.find?_cons_of_pos _ (by simpa using hst)]
      rfl
    · simp only [updateFirstPos, if_neg hst]
      rw [List.find?_cons_of_neg _ (by simpa using hst)]
      exact ih

theorem filter_strip_updateFirstPos (n : Nat) :
    ∀ l : List Stat,
      (updateFirstPos n l).filter (fun st => !(st.stat == "COD_POS")) =
        l.filter (fun st => !(st.stat == "COD_POS")) := by
  intro l
  induction l with
  | nil =>
    simp only [updateFirstPos]
    rw [List.filter_cons]
    simp [codPosStat]
  | cons st rest ih =>
    by_cases hst : st.stat == "COD_POS"
    · simp only [updateFirstPos, if_pos hst]
      rw [List.filter_cons, List.filter_cons]
      simp [hst]
    · simp only [updateFirstPos, if_neg hst]
      rw [List.filter_cons, List.filter_cons]
      have hb : (!(st.stat == "COD_POS")) = true := by simpa using hst
      rw [if_pos hb, if_pos hb, ih]

theorem updateFirstPos_idem (n : Nat) :
    ∀ l : List Stat, updateFirstPos n (updateFirstPos n l) = updateFirstPos n l := by
  intro l
  induction l with
  | nil => rfl
  | cons st rest ih =>
    by_cases hst : st.stat == "COD_POS"
    · simp [updateFirstPos, hst]
    · simp only [updateFirstPos, if_neg hst]
      rw [ih]

theorem scoreKey_setPos (n : Nat) (p : VisionPlayer) : scoreKey (setPos n p) = scoreKey p := by
  unfold scoreKey setPos
  rw [find?_score_updateFirstPos]

theorem scoreVal_setPos (n : Nat) (p : VisionPlayer) : scoreVal (setPos n p) = scoreVal p := by
  unfold scoreVal
  rw [scoreKey_setPos]

theorem cmpPlayers_setPos (n m : Nat) (a b : VisionPlayer) :
    cmpPlayers (setPos n a) (setPos m b) = cmpPlayers a b := by
  unfold cmpPlayers
  rw [scoreKey_setPos, scoreKey_setPos]

theorem posValue_setPos (n : Nat) (p : VisionPlayer) : posValue (setPos n p) = some (toString n) := by
  unfold posValue setPos
  exact find?_pos_updateFirstPos n p.stats

theorem stripPos_setPos (n : Nat) (p : VisionPlayer) : stripPos (setPos n p) = stripPos p := by
  unfold stripPos setPos
  simp only
  rw [filter_strip_updateFirstPos]

theorem setPos_idem (n : Nat) (p : VisionPlayer) : setPos n (setPos n p) = setPos n p := by
  unfold setPos
  simp only
  rw [updateFirstPos_idem]

theorem assignPositions_map_strip (n : Nat) :
    ∀ l : List VisionPlayer, (assignPositions n l).map stripPos = l.map stripPos := by
  intro l
  induction l generalizing n with
  | nil => rfl
  | cons p ps ih =>
    simp only [assignPositions, List.map_cons]
    rw [stripPos_setPos, ih]

theorem assignPositions_map_posValue (n : Nat) :
    ∀ l : List VisionPlayer,
      (assignPositions n l).map posValue =
        (List.range l.length).map (fun i => some (toString (n + i))) := by
  intro l
  induction l generalizing n with
  | nil => rfl
  | cons p ps ih =>
    simp only [assignPositions, List.map_cons, List.length_cons]
    rw [posValue_setPos, ih (n + 1)]
    rw [List.range_succ_eq_map]
    simp only [List.map_cons, List.map_map, Nat.add_zero]
    congr 1
    apply List.map_congr_left
    intro i _
    simp only [Function.comp_apply]
    congr 2
    omega

theorem assignPositions_idem (n : Nat) :
    ∀ l : List VisionPlayer, assignPositions n (assignPositions n l) = assignPositions n l := by
  intro l
  induction l generalizing n with
  | nil => rfl
  | cons p ps ih =>
    simp only [assignPositions]
    rw [setPos_idem, ih]

theorem adjPairs_assignPositions (n : Nat) :
    ∀ l : List VisionPlayer, AdjPairs cmpPlayers l → AdjPairs cmpPlayers (assignPositions n l) := by
  intro l
  induction l generalizing n with
  | nil => intro _; trivial
  | cons p ps ih =>
    intro h
    cases ps with
    | nil => trivial
    | cons q qs =>
      obtain ⟨hpq, h2⟩ : cmpPlayers p q ≤ 0 ∧ AdjPairs cmpPlayers (q :: qs) := h
      have ih2 := ih (n + 1) h2
      show AdjPairs cmpPlayers (setPos n p :: assignPositions (n + 1) (q :: qs))
      simp only [assignPositions] at ih2 ⊢
      exact ⟨by rw [cmpPlayers_setPos]; exact hpq, ih2⟩

/-- C6: the ranking post-process is idempotent: applying
`rankPlayersByScore` to the result of `rankPlayersByScore ps` yields the
same player order and the same `COD_POS` position assignments as applying
it once. -/
theorem rankPlayersByScore_idem (ps : List VisionPlayer) :
    rankPlayersByScore (rankPlayersByScore ps) = rankPlayersByScore ps := by
  unfold rankPlayersByScore
  rw [sortC_fix cmpPlayers _
    (adjPairs_assignPositions 1 _ (adjPairs_sortC cmpPlayers_antisymm ps))]
  rw [assignPositions_idem]

/-- C9: the ranking pass modifies only the derived `COD_POS` stat: with
`COD_POS` stripped, the players returned by `rankPlayersByScore` are
exactly the input players — same `playerId`, same `name`, and every stat
other than `COD_POS` with identical key and value — merely reordered. -/
theorem rankPlayersByScore_frame (ps : List VisionPlayer) :
    ((rankPlayersByScore ps).map stripPos).Perm (ps.map stripPos) := by
  unfold rankPlayersByScore
  rw [assignPositions_map_strip]
  exact (sortC_perm cmpPlayers ps).map stripPos

theorem cmpPlayers_eq_sub {a b : VisionPlayer}
    (ha : (scoreKey a).isSome = true) (hb : (scoreKey b).isSome = true) :
    cmpPlayers a b = scoreVal b - scoreVal a := by
  obtain ⟨x, hx⟩ := Option.isSome_iff_exists.mp ha
  obtain ⟨y, hy⟩ := Option.isSome_iff_exists.mp hb
  unfold cmpPlayers scoreVal
  rw [hx, hy]
  rfl

theorem adjPairs_head_bound :
    ∀ (xs : List VisionPlayer) (x : VisionPlayer),
      (∀ p ∈ x :: xs, (scoreKey p).isSome = true) →
      AdjPairs cmpPlayers (x :: xs) →
      ∀ y ∈ xs, scoreVal y ≤ scoreVal x := by
  intro xs
  induction xs with
  | nil => intro x _ _ y hy; cases hy
  | cons z zs ih =>
    intro x hdef h y hy
    obtain ⟨hxz, h2⟩ : cmpPlayers x z ≤ 0 ∧ AdjPairs cmpPlayers (z :: zs) := h
    have hzx : scoreVal z ≤ scoreVal x := by
      have := cmpPlayers_eq_sub (hdef x (by simp)) (hdef z (by simp))
      omega
    rcases List.mem_cons.mp hy with rfl | hmem
    · exact hzx
    · have := ih z (fun p hp => hdef p (List.mem_cons_of_mem x hp)) h2 y hmem
      omega

theorem adjPairs_pairwise :
    ∀ l : List VisionPlayer,
      (∀ p ∈ l, (scoreKey p).isSome = true) →
      AdjPairs cmpPlayers l →
      List.Pairwise (fun a b => scoreVal b ≤ scoreVal a) l := by
  intro l
  induction l with
  | nil => intro _ _; exact List.Pairwise.nil
  | cons x xs ih =>
    intro hdef h
    refine List.Pairwise.cons ?_ (ih (fun p hp => hdef p (List.mem_cons_of_mem x hp))
      (adjPairs_tail h))
    exact adjPairs_head_bound xs x hdef h

theorem insertC_split (x : VisionPlayer) :
    ∀ l : List VisionPlayer,
      (scoreKey x).isSome = true →
      (∀ p ∈ l, (scoreKey p).isSome = true) →
      ∃ l₁ l₂, l = l₁ ++ l₂ ∧ insertC cmpPlayers x l = l₁ ++ x :: l₂ ∧
        ∀ y ∈ l₁, scoreVal x < scoreVal y := by
  intro l
  induction l with
  | nil =>
    intro _ _
    exact ⟨[], [], rfl, rfl, by intro y hy; cases hy⟩
  | cons y ys ih =>
    intro hx hdef
    by_cases hxy : cmpPlayers x y ≤ 0
    · exact ⟨[], y :: ys, rfl, by simp [insertC, hxy], by intro z hz; cases hz⟩
    · obtain ⟨l₁, l₂, he, hi, hs⟩ := ih hx (fun p hp => hdef p (List.mem_cons_of_mem y hp))
      refine ⟨y :: l₁, l₂, by rw [List.cons_append, ← he], ?_, ?_⟩
      · simp only [insertC, if_neg hxy, hi, List.cons_append]
      · intro z hz
        rcases List.mem_cons.mp hz with rfl | hmem
        · have := cmpPlayers_eq_sub hx (hdef z (by simp))
          omega
        · exact hs z hmem

theorem sortC_stable (v : Int) :
    ∀ l : List VisionPlayer,
      (∀ p ∈ l, (scoreKey p).isSome = true) →
      (sortC cmpPlayers l).filter (fun p => scoreVal p == v) =
        l.filter (fun p => scoreVal p == v) := by
  intro l
  induction l with
  | nil => intro _; rfl
  | cons x xs ih =>
    intro hdef
    have hx : (scoreKey x).isSome = true := hdef x (by simp)
    have hxs : ∀ p ∈ xs, (scoreKey p).isSome = true :=
      fun p hp => hdef p (List.mem_cons_of_mem x hp)
    have hsort : ∀ p ∈ sortC cmpPlayers xs, (scoreKey p).isSome = true :=
      fun p hp => hxs p ((sortC_perm cmpPlayers xs).mem_iff.mp hp)
    obtain ⟨l₁, l₂, he, hi, hs⟩ := insertC_split x (sortC cmpPlayers xs) hx hsort
    show (insertC cmpPlayers x (sortC cmpPlayers xs)).filter _ = _
    have hxsfil : (sortC cmpPlayers xs).filter (fun p => scoreVal p == v) =
        xs.filter (fun p => scoreVal p == v) := ih hxs
    rw [he, List.filter_append] at hxsfil
    rw [hi, List.filter_append, List.filter_cons, List.filter_cons]
    by_cases hpx : (scoreVal x == v) = true
    · have hv : scoreVal x = v := by simpa using hpx
      have hl₁ : l₁.filter (fun p => scoreVal p == v) = [] := by
        rw [List.filter_eq_nil_iff]
        intro y hy
        have := hs y hy
        simp only [beq_iff_eq]
        omega
      rw [if_pos hpx, if_pos hpx, ← hxsfil, hl₁]
      simp
    · rw [if_neg hpx, if_neg hpx, ← hxsfil]

theorem mem_assignPositions :
    ∀ (l : List VisionPlayer) (m : Nat) (y : VisionPlayer),
      y ∈ assignPositions m l → ∃ k q, q ∈ l ∧ y = setPos k q := by
  intro l
  induction l with
  | nil => intro m y hy; cases hy
  | cons p ps ih =>
    intro m y hy
    rcases List.mem_cons.mp hy with rfl | hmem
    · exact ⟨m, p, by simp, rfl⟩
    · obtain ⟨k, q, hq, he⟩ := ih (m + 1) y hmem
      exact ⟨k, q, List.mem_cons_of_mem p hq, he⟩

theorem pairwise_assignPositions (n : Nat) :
    ∀ l : List VisionPlayer,
      List.Pairwise (fun a b => scoreVal b ≤ scoreVal a) l →
      List.Pairwise (fun a b => scoreVal b ≤ scoreVal a) (assignPositions n l) := by
  intro l
  induction l generalizing n with
  | nil => intro _; exact List.Pairwise.nil
  | cons p ps ih =>
    intro h
    rcases List.pairwise_cons.mp h with ⟨hhead, htail⟩
    refine List.Pairwise.cons ?_ (ih (n + 1) htail)
    intro y hy
    obtain ⟨k, q, hq, rfl⟩ := mem_assignPositions ps (n + 1) y hy
    rw [scoreVal_setPos, scoreVal_setPos]
    exact hhead q hq

theorem filter_strip_assignPositions (v : Int) (n : Nat) :
    ∀ l : List VisionPlayer,
      ((assignPositions n l).filter (fun p => scoreVal p == v)).map stripPos =
        (l.filter (fun p => scoreVal p == v)).map stripPos := by
  intro l
  induction l generalizing n with
  | nil => rfl
  | cons p ps ih =>
    simp only [assignPositions, List.filter_cons]
    rw [scoreVal_setPos]
    by_cases hp : (scoreVal p == v) = true
    · rw [if_pos hp, if_pos hp]
      simp only [List.map_cons]
      rw [stripPos_setPos, ih (n + 1)]
    · rw [if_neg hp, if_neg hp]
      exact ih (n + 1)

/-- C5: `rankPlayersByScore` on any player list whose present `COD_SCORE`
values are numeric (a missing score reads as 0) returns the players
ordered by their integer `COD_SCORE` descending, keeps tied players in
original input order, assigns the player at index i a `COD_POS` stat with
value `toString (i+1)` — created if absent, overwritten if present — and
changes nothing else about any player. -/
theorem rankPlayersByScore_spec (ps : List VisionPlayer)
    (h : ps.all (fun p => (scoreKey p).isSome) = true) :
    ((rankPlayersByScore ps).map posValue =
        (List.range ps.length).map (fun i => some (toString (i + 1)))) ∧
    List.Pairwise (fun a b => scoreVal b ≤ scoreVal a) (rankPlayersByScore ps) ∧
    (∀ v : Int, ((rankPlayersByScore ps).filter (fun p => scoreVal p == v)).map stripPos =
        (ps.filter (fun p => scoreVal p == v)).map stripPos) ∧
    ((rankPlayersByScore ps).map stripPos).Perm (ps.map stripPos) := by
  have hdef : ∀ p ∈ ps, (scoreKey p).isSome = true := List.all_eq_true.mp h
  have hdefs : ∀ p ∈ sortC cmpPlayers ps, (scoreKey p).isSome = true :=
    fun p hp => hdef p ((sortC_perm cmpPlayers ps).mem_iff.mp hp)
  refine ⟨?_, ?_, ?_, ?_⟩
  · unfold rankPlayersByScore
    rw [assignPositions_map_posValue, (sortC_perm cmpPlayers ps).length_eq]
    apply List.map_congr_left
    intro i _
    rw [Nat.add_comm]
  · unfold rankPlayersByScore
    exact pairwise_assignPositions 1 _
      (adjPairs_pairwise _ hdefs (adjPairs_sortC cmpPlayers_antisymm ps))
  · intro v
    unfold rankPlayersByScore
    rw [filter_strip_assignPositions, sortC_stable v ps hdef]
  · unfold rankPlayersByScore
    rw [assignPositions_map_strip]
    exact (sortC_perm cmpPlayers ps).map stripPos

/-- Witness for C5: the spec's example scores 30, 45, 12 all parse, and
the ranking assigns positions "1", "2", "3" down the sorted order. -/
theorem rankPlayersByScore_spec_witness :
    (demoRankPlayers.all (fun p => (scoreKey p).isSome) = true) ∧
    (rankPlayersByScore demoRankPlayers).map posValue = [some "1", some "2", some "3"] := by
  constructor
  · decide
  · exact (rankPlayersByScore_spec demoRankPlayers (by decide)).1.trans (by decide)

theorem bool_eq_of_iff {a b : Bool} (h : a = true ↔ b = true) : a = b := by
  cases a <;> cases b <;> simp_all

theorem foldl_max_init_le (sv : VisionPlayer → Int) :
    ∀ (l : List VisionPlayer) (init : Int),
      init ≤ l.foldl (fun acc q => max acc (sv q)) init := by
  intro l
  induction l with
  | nil => intro init; exact le_refl _
  | cons r l ih =>
    intro init
    exact le_trans (le_max_left init (sv r)) (ih (max init (sv r)))

theorem foldl_max_mem_le (sv : VisionPlayer → Int) :
    ∀ (l : List VisionPlayer) (init : Int) (q : VisionPlayer), q ∈ l →
      sv q ≤ l.foldl (fun acc q => max acc (sv q)) init := by
  intro l
  induction l with
  | nil => intro init q hq; cases hq
  | cons r l ih =>
    intro init q hq
    rcases List.mem_cons.mp hq with rfl | hmem
    · exact le_trans (le_max_right init (sv q)) (foldl_max_init_le sv l _)
    · exact ih _ q hmem

theorem foldl_max_attained (sv : VisionPlayer → Int) :
    ∀ (l : List VisionPlayer) (init : Int),
      l.foldl (fun acc q => max acc (sv q)) init = init ∨
        ∃ q ∈ l, l.foldl (fun acc q => max acc (sv q)) init = sv q := by
  intro l
  induction l with
  | nil => intro init; exact Or.inl rfl
  | cons r l ih =>
    intro init
    rcases ih (max init (sv r)) with heq | ⟨q, hq, heq⟩
    · rcases max_choice init (sv r) with hm | hm
      · exact Or.inl (by rw [List.foldl_cons, heq, hm])
      · exact Or.inr ⟨r, by simp, by rw [List.foldl_cons, heq, hm]⟩
    · exact Or.inr ⟨q, List.mem_cons_of_mem r hq, by rw [List.foldl_cons, heq]⟩

theorem calcIndWinner_cons (statName : String) (a : VisionPlayer) (ps : List VisionPlayer) :
    calculateIndividualWinner (a :: ps)
        { type := .INDIVIDUAL, winCondition := { statName := statName, comparison := .highest } } =
      (a :: ps).filter (fun q => winStatValue statName q ==
        ps.foldl (fun acc r => max acc (winStatValue statName r)) (winStatValue statName a)) :=
  rfl

theorem maxOf_ub (statName : String) (a : VisionPlayer) (ps : List VisionPlayer) :
    ∀ q ∈ a :: ps, winStatValue statName q ≤
      ps.foldl (fun acc r => max acc (winStatValue statName r)) (winStatValue statName a) := by
  intro q hq
  rcases List.mem_cons.mp hq with rfl | hmem
  · exact foldl_max_init_le (winStatValue statName) ps _
  · exact foldl_max_mem_le (winStatValue statName) ps _ q hmem

theorem maxOf_att (statName : String) (a : VisionPlayer) (ps : List VisionPlayer) :
    ∃ q ∈ a :: ps,
      ps.foldl (fun acc r => max acc (winStatValue statName r)) (winStatValue statName a) =
        winStatValue statName q := by
  rcases foldl_max_attained (winStatValue statName) ps (winStatValue statName a) with heq | ⟨q, hq, heq⟩
  · exact ⟨a, by simp, heq⟩
  · exact ⟨q, List.mem_cons_of_mem a hq, heq⟩

theorem calcIndWinner_highest_mem (statName : String) (players : List VisionPlayer)
    (p : VisionPlayer) :
    p ∈ calculateIndividualWinner players
        { type := .INDIVIDUAL, winCondition := { statName := statName, comparison := .highest } } ↔
      p ∈ players ∧ ∀ q ∈ players, winStatValue statName q ≤ winStatValue statName p := by
  cases players with
  | nil => simp [calculateIndividualWinner]
  | cons a ps =>
    rw [calcIndWinner_cons, List.mem_filter]
    constructor
    · rintro ⟨hp, hbeq⟩
      have hpv : winStatValue statName p =
          ps.foldl (fun acc r => max acc (winStatValue statName r)) (winStatValue statName a) := by
        simpa using hbeq
      exact ⟨hp, fun q hq => by rw [hpv]; exact maxOf_ub statName a ps q hq⟩
    · rintro ⟨hp, hall⟩
      refine ⟨hp, ?_⟩
      obtain ⟨q₀, hq₀, hq₀v⟩ := maxOf_att statName a ps
      have h1 : winStatValue statName p ≤
          ps.foldl (fun acc r => max acc (winStatValue statName r)) (winStatValue statName a) :=
        maxOf_ub statName a ps p hp
      have h2 : ps.foldl (fun acc r => max acc (winStatValue statName r)) (winStatValue statName a) ≤
          winStatValue statName p := by
        rw [hq₀v]; exact hall q₀ hq₀
      simp only [beq_iff_eq]
      omega

theorem calcIndWinner_highest_eq_filter (statName : String) (players : List VisionPlayer) :
    calculateIndividualWinner players
        { type := .INDIVIDUAL, winCondition := { statName := statName, comparison := .highest } } =
      players.filter (fun w =>
        players.all (fun q => decide (winStatValue statName q ≤ winStatValue statName w))) := by
  cases players with
  | nil => rfl
  | cons a ps =>
    rw [calcIndWinner_cons]
    apply List.filter_congr
    intro x hx
    apply bool_eq_of_iff
    rw [List.all_eq_true]
    constructor
    · intro hbeq
      have hv : winStatValue statName x =
          ps.foldl (fun acc r => max acc (winStatValue statName r)) (winStatValue statName a) := by
        simpa using hbeq
      intro q hq
      simp only [decide_eq_true_eq]
      rw [hv]
      exact maxOf_ub statName a ps q hq
    · intro hall
      obtain ⟨q₀, hq₀, hq₀v⟩ := maxOf_att statName a ps
      have h1 : winStatValue statName x ≤
          ps.foldl (fun acc r => max acc (winStatValue statName r)) (winStatValue statName a) :=
        maxOf_ub statName a ps x hx
      have h2 : ps.foldl (fun acc r => max acc (winStatValue statName r)) (winStatValue statName a) ≤
          winStatValue statName x := by
        rw [hq₀v]
        exact of_decide_eq_true (hall q₀ hq₀)
      simp only [beq_iff_eq]
      omega

theorem calcIndWinner_highest_perm (statName : String) {l l' : List VisionPlayer}
    (h : l.Perm l') :
    (calculateIndividualWinner l
        { type := .INDIVIDUAL, winCondition := { statName := statName, comparison := .highest } }).Perm
      (calculateIndividualWinner l'
        { type := .INDIVIDUAL, winCondition := { statName := statName, comparison := .highest } }) := by
  rw [calcIndWinner_highest_eq_filter, calcIndWinner_highest_eq_filter]
  have hpred : ∀ w, l.all (fun q => decide (winStatValue statName q ≤ winStatValue statName w)) =
      l'.all (fun q => decide (winStatValue statName q ≤ winStatValue statName w)) := by
    intro w
    apply bool_eq_of_iff
    rw [List.all_eq_true, List.all_eq_true]
    constructor
    · intro ha q hq
      exact ha q (h.mem_iff.mpr hq)
    · intro ha q hq
      exact ha q (h.mem_iff.mp hq)
  refine (h.filter _).trans ?_
  rw [List.filter_congr (fun x _ => hpred x)]

/-- C4: under the CoD Gun Game win condition (INDIVIDUAL, `COD_SCORE`,
`highest`), `calculateWinners` returns exactly the players attaining the
extremal score (missing values read as 0): every tied player is a
co-winner, the winner set is invariant under input order up to
permutation, and an empty player list yields an empty winner list rather
than an error. -/
theorem calculateWinners_spec :
    (CoDGunGameProcessor.calculateWinners [] = []) ∧
    (∀ (ps : List VisionPlayer) (p : VisionPlayer),
      p ∈ CoDGunGameProcessor.calculateWinners ps ↔
        (p ∈ ps ∧ ∀ q ∈ ps, winStatValue "COD_SCORE" q ≤ winStatValue "COD_SCORE" p)) ∧
    (∀ ps ps' : List VisionPlayer, ps.Perm ps' →
      (CoDGunGameProcessor.calculateWinners ps).Perm (CoDGunGameProcessor.calculateWinners ps')) := by
  refine ⟨rfl, ?_, ?_⟩
  · intro ps p
    exact calcIndWinner_highest_mem "COD_SCORE" ps p
  · intro ps ps' h
    exact calcIndWinner_highest_perm "COD_SCORE" h

/-- Witness for C4: in the spec's tie example with scores 10, 7, 10, 3 the
player "a" scoring 10 is a winner, the player "b" scoring 7 is excluded,
and reordering the input only permutes the winner set. -/
theorem calculateWinners_spec_witness :
    (scoredPlayer "a" "10" ∈ CoDGunGameProcessor.calculateWinners demoTieFirst) ∧
    ((CoDGunGameProcessor.calculateWinners demoTieFirst).Perm
      (CoDGunGameProcessor.calculateWinners demoTieSecond)) := by
  constructor
  · exact (calculateWinners_spec.2.1 demoTieFirst (scoredPlayer "a" "10")).mpr
      ⟨by decide, by decide⟩
  · exact calculateWinners_spec.2.2 demoTieFirst demoTieSecond (by decide)

/-- C1 (failing-input evaluation): on the CoD Gun Game path a player whose
reconciliation fails is excluded from `processedPlayers` yet
`reqCheckFlag` comes back `false` (the source's `requiresCheck` is a
`const false` and the per-player flags are ignored), and a player whose
normalization raises its per-player flag also yields `reqCheckFlag =
false`; the Marvel Rivals sibling returns `true` on the same inputs as
the claim demands. -/
theorem processPlayers_flag_bug :
    (validateProcessedPlayer (processPlayer rawGhostPlayer) demoRoster = none) ∧
    (CoDGunGameProcessor.processPlayers
        (.individual [{ valueArray := some [rawGhostPlayer] }]) demoRoster =
      some { processedPlayers := [], reqCheckFlag := false }) ∧
    (processMarvelRivalsPlayers
        (.individual [{ valueArray := some [rawGhostPlayer] }]) demoRoster =
      { processedPlayers := [], reqCheckFlag := true }) ∧
    ((processPlayer rawMakoMissing).reqCheckFlag = true) ∧
    (CoDGunGameProcessor.processPlayers
        (.individual [{ valueArray := some [rawMakoMissing] }]) demoRoster =
      some { processedPlayers :=
               [{ playerId := 7, name := "Mako",
                  stats := [{ statId := 1, stat := "COD_SCORE", statValue := "0" },
                            { statId := 12, stat := "COD_POS", statValue := "1" }] }]
             reqCheckFlag := false }) ∧
    (processMarvelRivalsPlayers
        (.individual [{ valueArray := some [rawMakoMissing] }]) demoRoster =
      { processedPlayers := [{ playerId := 7, name := "Mako",
                               stats := [{ statId := 1, stat := "COD_SCORE", statValue := "0" }] }]
        reqCheckFlag := true }) := by
  refine ⟨by decide, by decide, by decide, by decide, by decide, by decide⟩

/-- C2: a team-shaped raw extraction fed to the individual-only CoD Gun
Game processor yields the outcome `Failed` with empty players and
winners and the diagnostic message identifying the invalid shape, and in
a bulk batch that failure is confined to the single offending item: every
other item's outcome is exactly what the pipeline computes for it
alone. -/
theorem teamShape_failed_outcome :
    (∀ (teams : List AnalyzedTeamData) (roster : List Player),
      handleAnalyzeBtnClick (.team teams) roster =
        { status := .Failed, data := { players := [], winner := [] },
          message := "Invalid data format for CoD Gun Game players." }) ∧
    (∀ (pre post : List (String × RawExtraction)) (idTag : String)
        (teams : List AnalyzedTeamData) (roster : List Player),
      bulkProcess (pre ++ (idTag, RawExtraction.team teams) :: post) roster =
        bulkProcess pre roster ++
          (idTag,
            { status := .Failed, data := { players := [], winner := [] },
              message := "Invalid data format for CoD Gun Game players." }) ::
            bulkProcess post roster) := by
  constructor
  · intro teams roster
    rfl
  · intro pre post idTag teams roster
    unfold bulkProcess
    rw [List.map_append, List.map_cons]
    rfl

/-- Counterexample for C3: the reading "abc" is not resolvable as a value
of a numeric stat (`jsParseInt` yields `none`), yet both `validateStats`
implementations return it unchanged with `reqCheck := false` instead of
the claimed `{ statValue := "0", reqCheck := true }`. -/
theorem validateStats_nonnumeric_cex :
    (jsParseInt "abc" = none) ∧
    (CoDGunGameProcessor.validateStats (some "abc") (some 8) =
      { statValue := "abc", reqCheck := false }) ∧
    (validateMarvelRivalsStatValue (some "abc") (some 8) =
      { statValue := "abc", reqCheck := false }) ∧
    ¬ (CoDGunGameProcessor.validateStats (some "abc") (some 8) =
      { statValue := "0", reqCheck := true }) := by
  refine ⟨by decide, rfl, rfl, by decide⟩

/-- C3 (amended): both `validateStats` implementations substitute
`{ statValue := "0", reqCheck := true }` exactly when the reading is
absent; any present reading — numeric or not — is returned unchanged with
`reqCheck := false`, and a missing stat never fails outright. -/
theorem validateStats_amended :
    ∀ (s : String) (n : Option Nat),
      (CoDGunGameProcessor.validateStats none n = { statValue := "0", reqCheck := true }) ∧
      (CoDGunGameProcessor.validateStats (some s) n = { statValue := s, reqCheck := false }) ∧
      (validateMarvelRivalsStatValue none n = { statValue := "0", reqCheck := true }) ∧
      (validateMarvelRivalsStatValue (some s) n = { statValue := s, reqCheck := false }) := by
  intro s n
  exact ⟨rfl, rfl, rfl, rfl⟩

/-- C7: for all players, winners and flag values, both `validateResults`
implementations map a raised flag to `CheckRequest` with the fixed
advisory message and a clear flag to `Success` with the success message,
pass the given players and winners through unchanged in `data`, and never
return `Failed`. -/
theorem validateResults_spec :
    ∀ (players winners : List VisionPlayer),
      (CoDGunGameProcessor.validateResults players winners true =
        { status := .CheckRequest
          data := { players := players, winner := winners }
          message := "There was some trouble processing some stats. They have been assigned the most probable value but please check to ensure all stats are correct before submitting." }) ∧
      (CoDGunGameProcessor.validateResults players winners false =
        { status := .Success
          data := { players := players, winner := winners }
          message := "Results have been successfully imported." }) ∧
      (∀ b : Bool,
        (CoDGunGameProcessor.validateResults players winners b).status = .CheckRequest ∨
        (CoDGunGameProcessor.validateResults players winners b).status = .Success) ∧
      (∀ b : Bool,
        MarvelRivals.validateResults players winners b =
          CoDGunGameProcessor.validateResults players winners b) := by
  intro players winners
  refine ⟨rfl, rfl, ?_, ?_⟩
  · intro b
    cases b
    · exact Or.inr rfl
    · exact Or.inl rfl
  · intro b
    cases b <;> rfl

/-- C8 (failing-input evaluation): the CoD Gun Game `processPlayers`
throws (embedded as `none`) on an individual-shaped outer array that is
empty or whose first entry has no `valueArray`, instead of returning a
result; the Marvel Rivals sibling returns a result on every such
input. -/
theorem processPlayers_totality_bug :
    (CoDGunGameProcessor.processPlayers (.individual []) demoRoster = none) ∧
    (CoDGunGameProcessor.processPlayers
        (.individual [{ valueArray := none }]) demoRoster = none) ∧
    (processMarvelRivalsPlayers (.individual []) demoRoster =
      { processedPlayers := [], reqCheckFlag := true }) ∧
    (processMarvelRivalsPlayers (.individual [{ valueArray := none }]) demoRoster =
      { processedPlayers := [], reqCheckFlag := true }) ∧
    (processMarvelRivalsPlayers (.individual [{ valueArray := some [] }]) demoRoster =
      { processedPlayers := [], reqCheckFlag := true }) :=
  ⟨rfl, rfl, rfl, rfl, rfl⟩

/-- C10: both `processPlayers` implementations depend only on the first
entry of an individual-shaped extraction array: with the same first entry
(carrying a non-empty `valueArray`) and the same roster, any entries
after the first never affect the returned `processedPlayers` and
`reqCheckFlag`. -/
theorem processPlayers_first_entry_only :
    ∀ (e : AnalyzedPlayersObj) (rest rest' : List AnalyzedPlayersObj) (roster : List Player),
      (∃ l, e.valueArray = some l ∧ l ≠ []) →
      (CoDGunGameProcessor.processPlayers (.individual (e :: rest)) roster =
        CoDGunGameProcessor.processPlayers (.individual (e :: rest')) roster) ∧
      (processMarvelRivalsPlayers (.individual (e :: rest)) roster =
        processMarvelRivalsPlayers (.individual (e :: rest')) roster) := by
  intro e rest rest' roster _
  exact ⟨rfl, rfl⟩

/-- Witness for C10: dropping a second entry behind a populated first
entry changes neither processor's result. -/
theorem processPlayers_first_entry_only_witness :
    (∃ l, (AnalyzedPlayersObj.mk (some [rawMakoPresent])).valueArray = some l ∧ l ≠ []) ∧
    (CoDGunGameProcessor.processPlayers
        (.individual [{ valueArray := some [rawMakoPresent] }, { valueArray := none }])
        demoRoster =
      CoDGunGameProcessor.processPlayers
        (.individual [{ valueArray := some [rawMakoPresent] }]) demoRoster) ∧
    (processMarvelRivalsPlayers
        (.individual [{ valueArray := some [rawMakoPresent] }, { valueArray := none }])
        demoRoster =
      processMarvelRivalsPlayers
        (.individual [{ valueArray := some [rawMakoPresent] }]) demoRoster) := by
  have h : ∃ l, (AnalyzedPlayersObj.mk (some [rawMakoPresent])).valueArray = some l ∧ l ≠ [] :=
    ⟨[rawMakoPresent], rfl, by decide⟩
  have h2 := processPlayers_first_entry_only { valueArray := some [rawMakoPresent] }
    [{ valueArray := none }] [] demoRoster h
  exact ⟨h, h2.1, h2.2⟩
